import Mathlib

/-!
Verification of the SureSight training pipeline (`src/ml/train_model.py`).

The script wires TensorFlow/Keras library primitives together:
`get_datasets` calls `tf.keras.preprocessing.image_dataset_from_directory`
twice with the same seed, `configure_dataset` applies `shuffle(1000)`,
`cache()` and `prefetch`, `build_model` assembles a `Sequential` CNN, and
`main` trains with `EarlyStopping(monitor=val_loss, patience=3,
restore_best_weights=True)` and `ModelCheckpoint(filepath=
best_damage_model.h5, monitor=val_loss, save_best_only=True)`, finally
saving to `damage_assessment_model_final.h5`.

The Keras library internals are not part of this repository, so the
library primitives are modelled from the spec (each such definition says
so in its doc comment); the repository's own functions are translated
from the source.
-/

namespace SureSight

/-! ## Training orchestration model (spec section 4.5)

Modelled from the spec: the per-epoch behaviour of `model.fit` with the
`EarlyStopping` and `ModelCheckpoint` callbacks configured in `main`
(`src/ml/train_model.py`), whose Keras implementation is not part of this
repository.  A validation loss is either a finite rational or non-finite
(NaN/Inf); weights are abstract values of a type `W`, with the weights
reached after epoch `e` given by a function `wts e`. -/

/-- A loss value observed during training: finite, or non-finite
(divergence, spec section 7). -/
inductive LossVal where
  | fin : ℚ → LossVal
  | nonFinite : LossVal
deriving DecidableEq

/-- Terminal/running status of the orchestrator state machine
(spec: states Running, Stopped-EarlyStop, plus the fatal divergence). -/
inductive RunStatus where
  | running
  | earlyStopped
  | diverged
deriving DecidableEq

/-- The orchestrator's mutable TrainingState (spec section 3): epochs
completed, best validation loss so far, best weight snapshot, the
early-stopping wait counter, run status, the list of validation losses at
which a best-checkpoint artifact was persisted (in write order), and the
current weights. -/
structure TrainState (W : Type) where
  epoch : Nat
  best : Option ℚ
  bestW : Option W
  wait : Nat
  status : RunStatus
  ckpts : List ℚ
  curW : W
deriving DecidableEq

/-- Strict-improvement test used by both callbacks: any finite loss
improves on "no best yet"; otherwise improvement means strict decrease. -/
def improves (q : ℚ) (best : Option ℚ) : Bool :=
  match best with
  | none => true
  | some b => decide (q < b)

/-- Modelled from the spec: one epoch of `model.fit` under the two
callbacks.  A non-finite loss aborts the run at once
(`TrainingDivergenceError`): the epoch does not complete and no state
other than the status changes.  Otherwise, on strict improvement the best
loss/weights are snapshotted and a best-checkpoint is written
(`save_best_only=True`); on no improvement the wait counter grows and the
run early-stops once it reaches `patience`. -/
def epochStep (patience : Nat) (s : TrainState W) (l : LossVal) (w : W) :
    TrainState W :=
  match l with
  | .nonFinite => { s with status := .diverged }
  | .fin q =>
    if improves q s.best then
      { epoch := s.epoch + 1, best := some q, bestW := some w, wait := 0,
        status := .running, ckpts := s.ckpts ++ [q], curW := w }
    else
      { epoch := s.epoch + 1, best := s.best, bestW := s.bestW,
        wait := s.wait + 1,
        status := if patience ≤ s.wait + 1 then .earlyStopped else .running,
        ckpts := s.ckpts, curW := w }

/-- Run up to `fuel` further epochs from state `s`; epoch `s.epoch + 1`
sees validation loss `loss (s.epoch + 1)` and weights `wts (s.epoch + 1)`.
Stops as soon as the status leaves `running`. -/
def runFrom (patience : Nat) (loss : Nat → LossVal) (wts : Nat → W) :
    TrainState W → Nat → TrainState W
  | s, 0 => s
  | s, fuel + 1 =>
    if s.status = .running then
      runFrom patience loss wts
        (epochStep patience s (loss (s.epoch + 1)) (wts (s.epoch + 1))) fuel
    else s

/-- Initial orchestrator state with initial weights `w0`. -/
def initState (w0 : W) : TrainState W :=
  { epoch := 0, best := none, bestW := none, wait := 0,
    status := .running, ckpts := [], curW := w0 }

/-- A whole training run: at most `maxEpochs` epochs from the initial
state (`epochs = 20` in `main`). -/
def run (patience maxEpochs : Nat) (loss : Nat → LossVal) (wts : Nat → W)
    (w0 : W) : TrainState W :=
  runFrom patience loss wts (initState w0) maxEpochs

/-- Modelled from the spec: the weights this implementation persists as
the final artifact — the best snapshot is restored at termination
regardless of which terminal state was reached (spec sections 4.5 and 9). -/
def finalWeights (s : TrainState W) : W :=
  s.bestW.getD s.curW

/-! ### Basic run lemmas -/

theorem runFrom_zero (patience : Nat) (loss : Nat → LossVal) (wts : Nat → W)
    (s : TrainState W) : runFrom patience loss wts s 0 = s := rfl

theorem runFrom_succ (patience : Nat) (loss : Nat → LossVal) (wts : Nat → W)
    (s : TrainState W) (fuel : Nat) :
    runFrom patience loss wts s (fuel + 1) =
      if s.status = .running then
        runFrom patience loss wts
          (epochStep patience s (loss (s.epoch + 1)) (wts (s.epoch + 1))) fuel
      else s := rfl

/-- Once the run has left the `running` status, further fuel changes
nothing. -/
theorem runFrom_absorb (patience : Nat) (loss : Nat → LossVal)
    (wts : Nat → W) (s : TrainState W) (n : Nat)
    (h : s.status ≠ .running) : runFrom patience loss wts s n = s := by
  cases n with
  | zero => rfl
  | succ m => rw [runFrom_succ, if_neg h]

/-- Splitting a run of `a + b` epochs at epoch `a`. -/
theorem runFrom_add (patience : Nat) (loss : Nat → LossVal) (wts : Nat → W)
    (s : TrainState W) (a b : Nat) :
    runFrom patience loss wts s (a + b) =
      runFrom patience loss wts (runFrom patience loss wts s a) b := by
  induction a generalizing s with
  | zero => rw [Nat.zero_add]; rfl
  | succ a ih =>
    by_cases h : s.status = .running
    · rw [show a + 1 + b = (a + b) + 1 by omega, runFrom_succ, if_pos h,
        runFrom_succ, if_pos h, ih]
    · rw [runFrom_absorb _ _ _ _ _ h, runFrom_absorb _ _ _ _ _ h,
        runFrom_absorb _ _ _ _ _ h]

/-- A step that does not diverge completed an epoch: the epoch counter
grew by one. -/
theorem epochStep_epoch (patience : Nat) (s : TrainState W)
    (l : LossVal) (w : W)
    (h : (epochStep patience s l w).status ≠ .diverged) :
    (epochStep patience s l w).epoch = s.epoch + 1 := by
  cases l with
  | nonFinite => exact absurd rfl h
  | fin q =>
    by_cases hi : improves q s.best
    · simp [epochStep, hi]
    · simp [epochStep, hi]

/-- A step that leaves the run in `running` status completed an epoch. -/
theorem epochStep_epoch_of_running (patience : Nat) (s : TrainState W)
    (l : LossVal) (w : W)
    (h : (epochStep patience s l w).status = .running) :
    (epochStep patience s l w).epoch = s.epoch + 1 :=
  epochStep_epoch patience s l w (by rw [h]; intro hc; cases hc)

/-- A single step never decreases the epoch counter. -/
theorem epochStep_epoch_le (patience : Nat) (s : TrainState W)
    (l : LossVal) (w : W) : s.epoch ≤ (epochStep patience s l w).epoch := by
  cases l with
  | nonFinite => exact Nat.le_refl _
  | fin q =>
    by_cases hi : improves q s.best
    · simp [epochStep, hi]
    · simp [epochStep, hi]

/-- If a run is still `running` after `n` fuel, the start state was
running and exactly `n` epochs completed. -/
theorem runFrom_running (patience : Nat) (loss : Nat → LossVal)
    (wts : Nat → W) (s : TrainState W) (n : Nat)
    (h : (runFrom patience loss wts s n).status = .running) :
    s.status = .running ∧
      (runFrom patience loss wts s n).epoch = s.epoch + n := by
  induction n generalizing s with
  | zero => exact ⟨h, rfl⟩
  | succ m ih =>
    by_cases hs : s.status = .running
    · rw [runFrom_succ, if_pos hs] at h ⊢
      obtain ⟨hstep, hep⟩ := ih _ h
      refine ⟨hs, ?_⟩
      rw [hep, epochStep_epoch_of_running _ _ _ _ hstep]
      omega
    · rw [runFrom_absorb _ _ _ _ _ hs] at h
      exact absurd h hs

/-- The epoch counter never decreases along a run. -/
theorem runFrom_epoch_mono (patience : Nat) (loss : Nat → LossVal)
    (wts : Nat → W) (s : TrainState W) (n : Nat) :
    s.epoch ≤ (runFrom patience loss wts s n).epoch := by
  induction n generalizing s with
  | zero => exact Nat.le_refl _
  | succ m ih =>
    by_cases hs : s.status = .running
    · rw [runFrom_succ, if_pos hs]
      exact Nat.le_trans (epochStep_epoch_le _ _ _ _) (ih _)
    · rw [runFrom_absorb _ _ _ _ _ hs]

/-- Reaching `earlyStopped` from a state that was not already stopped
requires completing at least one epoch. -/
theorem runFrom_earlyStopped_epoch (patience : Nat) (loss : Nat → LossVal)
    (wts : Nat → W) (s : TrainState W) (n : Nat)
    (h : (runFrom patience loss wts s n).status = .earlyStopped) :
    s.status = .earlyStopped ∨
      s.epoch < (runFrom patience loss wts s n).epoch := by
  induction n generalizing s with
  | zero => exact Or.inl h
  | succ m ih =>
    by_cases hs : s.status = .running
    · rw [runFrom_succ, if_pos hs] at h ⊢
      rcases ih _ h with hst | hlt
      · right
        have h1 := epochStep_epoch patience s (loss (s.epoch + 1))
          (wts (s.epoch + 1)) (by rw [hst]; intro hc; cases hc)
        have h2 := runFrom_epoch_mono patience loss wts
          (epochStep patience s (loss (s.epoch + 1)) (wts (s.epoch + 1))) m
        omega
      · right
        have h1 := epochStep_epoch_le patience s (loss (s.epoch + 1))
          (wts (s.epoch + 1))
        omega
    · rw [runFrom_succ, if_neg hs] at h ⊢
      exact Or.inl h

/-- During a stretch of `j ≤ patience` consecutive non-improving epochs
from a running state with a freshly reset wait counter, the best
loss/snapshot stay fixed, the wait counter counts the stretch, and the
run early-stops exactly when the stretch reaches `patience`. -/
theorem runFrom_stall (patience : Nat) (loss : Nat → LossVal)
    (wts : Nat → W) (s : TrainState W)
    (hs : s.status = .running) (hw : s.wait = 0) (hp : 0 < patience) :
    ∀ j, j ≤ patience →
    (∀ i, 1 ≤ i → i ≤ j →
      ∃ q, loss (s.epoch + i) = .fin q ∧ improves q s.best = false) →
    (runFrom patience loss wts s j).epoch = s.epoch + j ∧
    (runFrom patience loss wts s j).wait = j ∧
    (runFrom patience loss wts s j).best = s.best ∧
    (runFrom patience loss wts s j).bestW = s.bestW ∧
    (runFrom patience loss wts s j).ckpts = s.ckpts ∧
    (runFrom patience loss wts s j).status =
      (if patience ≤ j then .earlyStopped else .running) := by
  intro j
  induction j with
  | zero =>
    intro _ _
    refine ⟨rfl, hw.symm ▸ rfl, rfl, rfl, rfl, ?_⟩
    rw [if_neg (by omega)]
    exact hs.symm ▸ rfl
  | succ j ih =>
    intro hj hni
    have hj' : j ≤ patience := Nat.le_of_succ_le hj
    obtain ⟨hep, hwt, hbs, hbw, hck, hst⟩ :=
      ih hj' (fun i h1 h2 => hni i h1 (Nat.le_succ_of_le h2))
    have hrun : (runFrom patience loss wts s j).status = .running := by
      rw [hst, if_neg (by omega)]
    rw [show j + 1 = j + 1 from rfl, runFrom_add patience loss wts s j 1,
      runFrom_succ, if_pos hrun, runFrom_zero]
    obtain ⟨q, hq, hqi⟩ := hni (j + 1) (by omega) (Nat.le_refl _)
    have hqi' : improves q (runFrom patience loss wts s j).best = false := by
      rw [hbs]; exact hqi
    rw [hep, show s.epoch + j + 1 = s.epoch + (j + 1) by omega, hq]
    refine ⟨?_, ?_, ?_, ?_, ?_, ?_⟩
    · simp [epochStep, hqi', hqi, hep]; omega
    · simp [epochStep, hqi', hqi, hwt]
    · simp [epochStep, hqi', hqi, hbs]
    · simp [epochStep, hqi', hqi, hbw]
    · simp [epochStep, hqi', hqi, hck]
    · simp [epochStep, hqi', hqi, hwt]

/-- If after `k ≥ 1` epochs the run is still going and the wait counter
is zero, epoch `k` was an improving epoch, so the best snapshot is the
weights of epoch `k`. -/
theorem runFrom_wait_zero (patience : Nat) (loss : Nat → LossVal)
    (wts : Nat → W) (w0 : W) (k : Nat) (hk : 1 ≤ k)
    (hrun : (runFrom patience loss wts (initState w0) k).status = .running)
    (hw : (runFrom patience loss wts (initState w0) k).wait = 0) :
    (runFrom patience loss wts (initState w0) k).bestW = some (wts k) := by
  obtain ⟨k', rfl⟩ : ∃ k', k = k' + 1 := ⟨k - 1, by omega⟩
  have hsplit := runFrom_add patience loss wts (initState w0) k' 1
  set t := runFrom patience loss wts (initState w0) k' with ht
  by_cases hts : t.status = .running
  · rw [hsplit, runFrom_succ, if_pos hts, runFrom_zero] at hrun hw ⊢
    have hepk : t.epoch = k' := by
      have := runFrom_running patience loss wts (initState w0) k' hts
      simpa [initState] using this.2
    cases hl : loss (t.epoch + 1) with
    | nonFinite =>
      rw [hl] at hrun
      simp [epochStep] at hrun
    | fin q =>
      rw [hl] at hrun hw
      by_cases hi : improves q t.best
      · simp only [epochStep, hi, if_pos]
        rw [hepk]
      · simp [epochStep, hi] at hw
  · rw [hsplit, runFrom_absorb _ _ _ _ _ hts] at hrun
    exact absurd hrun hts

/-! ### Checkpoint-monotonicity invariant (for C4) -/

/-- Invariant tying the checkpoint log to the best loss: the logged
losses are strictly decreasing and the last one (if any) is the current
best. -/
def ckptInv (s : TrainState W) : Prop :=
  List.Chain' (fun a b => b < a) s.ckpts ∧
    (match s.best with
     | none => s.ckpts = []
     | some b => s.ckpts.getLast? = some b)

theorem ckptInv_init (w0 : W) : ckptInv (initState w0) := by
  constructor
  · exact List.chain'_nil
  · rfl

theorem ckptInv_step (patience : Nat) (s : TrainState W) (l : LossVal)
    (w : W) (h : ckptInv s) : ckptInv (epochStep patience s l w) := by
  obtain ⟨hchain, hlast⟩ := h
  cases l with
  | nonFinite => exact ⟨hchain, hlast⟩
  | fin q =>
    by_cases hi : improves q s.best
    · refine ⟨?_, ?_⟩
      · simp only [epochStep, hi, if_pos]
        rw [List.chain'_append]
        refine ⟨hchain, List.chain'_singleton _, ?_⟩
        intro x hx y hy
        simp only [List.head?_cons, Option.mem_def, Option.some_inj] at hy
        subst hy
        cases hsb : s.best with
        | none =>
          have he : s.ckpts = [] := by rw [hsb] at hlast; exact hlast
          rw [he] at hx
          simp at hx
        | some b =>
          have he : s.ckpts.getLast? = some b := by
            rw [hsb] at hlast; exact hlast
          rw [he] at hx
          simp only [Option.mem_def, Option.some_inj] at hx
          subst hx
          rw [hsb] at hi
          simpa [improves] using hi
      · simp only [epochStep, hi, if_pos]
        simp [List.getLast?_append]
    · refine ⟨?_, ?_⟩
      · simpa only [epochStep, hi, Bool.false_eq_true, if_neg] using hchain
      · simpa only [epochStep, hi, Bool.false_eq_true, if_neg] using hlast

theorem ckptInv_runFrom (patience : Nat) (loss : Nat → LossVal)
    (wts : Nat → W) (s : TrainState W) (n : Nat) (h : ckptInv s) :
    ckptInv (runFrom patience loss wts s n) := by
  induction n generalizing s with
  | zero => exact h
  | succ m ih =>
    by_cases hs : s.status = .running
    · rw [runFrom_succ, if_pos hs]
      exact ih _ (ckptInv_step _ _ _ _ h)
    · rw [runFrom_succ, if_neg hs]
      exact h

/-! ### Best-snapshot invariant (for C5) -/

/-- Invariant: either no epoch has completed yet, or the best snapshot is
the weights of some completed epoch `m` whose finite loss is minimal
among all completed epochs. -/
def bestInv (loss : Nat → LossVal) (wts : Nat → W) (s : TrainState W) :
    Prop :=
  (s.best = none ∧ s.bestW = none ∧ s.epoch = 0) ∨
  ∃ m qm, 1 ≤ m ∧ m ≤ s.epoch ∧ loss m = .fin qm ∧ s.best = some qm ∧
    s.bestW = some (wts m) ∧
    ∀ j, 1 ≤ j → j ≤ s.epoch → ∃ q, loss j = .fin q ∧ qm ≤ q

theorem bestInv_init (loss : Nat → LossVal) (wts : Nat → W) (w0 : W) :
    bestInv loss wts (initState w0) :=
  Or.inl ⟨rfl, rfl, rfl⟩

theorem bestInv_step (patience : Nat) (loss : Nat → LossVal)
    (wts : Nat → W) (s : TrainState W) (h : bestInv loss wts s) :
    bestInv loss wts
      (epochStep patience s (loss (s.epoch + 1)) (wts (s.epoch + 1))) := by
  cases hl : loss (s.epoch + 1) with
  | nonFinite =>
    rcases h with ⟨h1, h2, h3⟩ | ⟨m, qm, hm⟩
    · exact Or.inl ⟨h1, h2, h3⟩
    · exact Or.inr ⟨m, qm, hm⟩
  | fin q =>
    by_cases hi : improves q s.best
    · refine Or.inr ⟨s.epoch + 1, q, by omega, ?_, hl, ?_, ?_, ?_⟩
      · simp [epochStep, hi]
      · simp [epochStep, hi]
      · simp [epochStep, hi]
      · intro j h1 h2
        have hepq : (epochStep patience s (LossVal.fin q)
            (wts (s.epoch + 1))).epoch = s.epoch + 1 := by
          simp [epochStep, hi]
        rw [hepq] at h2
        by_cases hj : j = s.epoch + 1
        · exact hj ▸ ⟨q, hl, le_refl q⟩
        · have hj' : j ≤ s.epoch := by omega
          rcases h with ⟨_, _, h3⟩ | ⟨m, qm, _, _, _, hb, _, hall⟩
          · omega
          · obtain ⟨q0, hq0, hle⟩ := hall j h1 hj'
            refine ⟨q0, hq0, ?_⟩
            rw [hb] at hi
            simp only [improves, decide_eq_true_eq] at hi
            exact le_trans (le_of_lt hi) hle
    · rcases h with ⟨hb, _, _⟩ | ⟨m, qm, hm1, hm2, hm3, hb, hbw, hall⟩
      · rw [hb] at hi
        simp [improves] at hi
      · refine Or.inr ⟨m, qm, hm1, ?_, hm3, ?_, ?_, ?_⟩
        · simp [epochStep, hi]
          omega
        · simpa only [epochStep, hi, Bool.false_eq_true, if_neg] using hb
        · simpa only [epochStep, hi, Bool.false_eq_true, if_neg] using hbw
        · intro j h1 h2
          have hepq : (epochStep patience s (LossVal.fin q)
              (wts (s.epoch + 1))).epoch = s.epoch + 1 := by
            simp [epochStep, hi]
          rw [hepq] at h2
          by_cases hj : j = s.epoch + 1
          · refine hj ▸ ⟨q, hl, ?_⟩
            rw [hb] at hi
            exact le_of_not_lt (by simpa [improves] using hi)
          · exact hall j h1 (by omega)

theorem bestInv_runFrom (patience : Nat) (loss : Nat → LossVal)
    (wts : Nat → W) (s : TrainState W) (n : Nat)
    (h : bestInv loss wts s) :
    bestInv loss wts (runFrom patience loss wts s n) := by
  induction n generalizing s with
  | zero => exact h
  | succ m ih =>
    by_cases hs : s.status = .running
    · rw [runFrom_succ, if_pos hs]
      exact ih _ (bestInv_step _ _ _ _ h)
    · rw [runFrom_succ, if_neg hs]
      exact h

/-! ## Claim theorems about the training orchestrator -/

/-- C3: if after epoch `k` (an improving epoch, so the wait counter is
zero and the best snapshot is the epoch-`k` weights) the validation loss
fails to improve for `patience` consecutive epochs, the orchestrator
halts at epoch `k + patience` (not later), transitions to the
early-stopped state, and the final weights equal the best snapshot taken
at epoch `k`. -/
theorem early_stop_halts_and_restores (patience k maxEpochs : Nat)
    (loss : Nat → LossVal) (wts : Nat → W) (w0 : W)
    (hp : 0 < patience) (hk1 : 1 ≤ k)
    (hrun : (runFrom patience loss wts (initState w0) k).status = .running)
    (hwait : (runFrom patience loss wts (initState w0) k).wait = 0)
    (hmax : k + patience ≤ maxEpochs)
    (hni : ∀ j, 1 ≤ j → j ≤ patience → ∃ q, loss (k + j) = .fin q ∧
      improves q (runFrom patience loss wts (initState w0) k).best = false) :
    (run patience maxEpochs loss wts w0).epoch = k + patience ∧
    (run patience maxEpochs loss wts w0).status = .earlyStopped ∧
    (run patience maxEpochs loss wts w0).bestW = some (wts k) ∧
    finalWeights (run patience maxEpochs loss wts w0) = wts k := by
  have hep : (runFrom patience loss wts (initState w0) k).epoch = k := by
    have := runFrom_running patience loss wts (initState w0) k hrun
    simpa [initState] using this.2
  have hbw := runFrom_wait_zero patience loss wts w0 k hk1 hrun hwait
  obtain ⟨sep, swt, sbs, sbw, sck, sst⟩ :=
    runFrom_stall patience loss wts
      (runFrom patience loss wts (initState w0) k) hrun hwait hp patience
      (Nat.le_refl _) (by rw [hep]; exact hni)
  rw [if_pos (Nat.le_refl patience)] at sst
  have hsplit : run patience maxEpochs loss wts w0 =
      runFrom patience loss wts
        (runFrom patience loss wts
          (runFrom patience loss wts (initState w0) k) patience)
        (maxEpochs - k - patience) := by
    rw [run, show maxEpochs = k + (patience + (maxEpochs - k - patience))
      by omega, runFrom_add, runFrom_add]
    congr 1
    omega
  rw [hsplit, runFrom_absorb _ _ _ _ _ (by rw [sst]; intro hc; cases hc)]
  refine ⟨by rw [sep, hep], sst, by rw [sbw, hbw], ?_⟩
  rw [finalWeights, sbw, hbw]
  rfl

/-- C4: a best-checkpoint artifact is written by an epoch step exactly
when that epoch's validation loss strictly improves on the best seen so
far, and consequently the sequence of validation losses at which best
checkpoints are written over any run is strictly decreasing. -/
theorem checkpoint_losses_strictly_decreasing (patience maxEpochs : Nat)
    (loss : Nat → LossVal) (wts : Nat → W) (w0 : W) :
    List.Chain' (fun a b => b < a)
      (run patience maxEpochs loss wts w0).ckpts ∧
    ∀ (s : TrainState W) (q : ℚ) (w : W),
      ((epochStep patience s (.fin q) w).ckpts = s.ckpts ++ [q] ↔
        improves q s.best = true) ∧
      ((epochStep patience s (.fin q) w).ckpts = s.ckpts ↔
        improves q s.best = false) := by
  constructor
  · exact (ckptInv_runFrom patience loss wts (initState w0) maxEpochs
      (ckptInv_init w0)).1
  · intro s q w
    by_cases hi : improves q s.best
    · constructor
      · simp [epochStep, hi]
      · simp [epochStep, hi]
    · constructor
      · simp [epochStep, hi]
      · simp [epochStep, hi]

/-- C5: at termination of a non-diverged run of at least one epoch, the
persisted final weights equal the best snapshot — the weights of a
completed epoch `m` whose validation loss is minimal among all completed
epochs — regardless of which terminal state was reached. -/
theorem termination_restores_best (patience maxEpochs : Nat)
    (loss : Nat → LossVal) (wts : Nat → W) (w0 : W)
    (hmax : 1 ≤ maxEpochs)
    (hnd : (run patience maxEpochs loss wts w0).status ≠ .diverged) :
    ∃ m qm, 1 ≤ m ∧ m ≤ (run patience maxEpochs loss wts w0).epoch ∧
      loss m = .fin qm ∧
      (run patience maxEpochs loss wts w0).bestW = some (wts m) ∧
      finalWeights (run patience maxEpochs loss wts w0) = wts m ∧
      ∀ j, 1 ≤ j → j ≤ (run patience maxEpochs loss wts w0).epoch →
        ∃ q, loss j = .fin q ∧ qm ≤ q := by
  have hinv := bestInv_runFrom patience loss wts (initState w0) maxEpochs
    (bestInv_init loss wts w0)
  have hrr : runFrom patience loss wts (initState w0) maxEpochs =
      run patience maxEpochs loss wts w0 := rfl
  rw [hrr] at hinv
  have hpos : 1 ≤ (run patience maxEpochs loss wts w0).epoch := by
    cases hst : (run patience maxEpochs loss wts w0).status with
    | running =>
      have h2 := (runFrom_running patience loss wts (initState w0)
        maxEpochs hst).2
      rw [run, h2]
      simp [initState]
      omega
    | earlyStopped =>
      rcases runFrom_earlyStopped_epoch patience loss wts (initState w0)
        maxEpochs hst with hcon | hlt2
      · simp [initState] at hcon
      · have h0 : (initState w0).epoch = 0 := rfl
        rw [run]
        omega
    | diverged => exact absurd hst hnd
  rcases hinv with ⟨_, _, h3⟩ | ⟨m, qm, hm1, hm2, hm3, _, hbw, hall⟩
  · omega
  · exact ⟨m, qm, hm1, hm2, hm3, hbw, by rw [finalWeights, hbw]; rfl, hall⟩

/-- C6: if a batch produces a non-finite validation loss at epoch
`k + 1` of a run that was still going after `k` epochs, the run aborts
immediately in the diverged state (`TrainingDivergenceError`), no
further epochs are executed, and the best-checkpoint log and best
snapshot are exactly those after epoch `k`. -/
theorem divergence_aborts_run (patience k maxEpochs : Nat)
    (loss : Nat → LossVal) (wts : Nat → W) (w0 : W)
    (hk : (runFrom patience loss wts (initState w0) k).status = .running)
    (hdiv : loss (k + 1) = .nonFinite)
    (hlt : k < maxEpochs) :
    (run patience maxEpochs loss wts w0).status = .diverged ∧
    (run patience maxEpochs loss wts w0).epoch = k ∧
    (run patience maxEpochs loss wts w0).ckpts =
      (runFrom patience loss wts (initState w0) k).ckpts ∧
    (run patience maxEpochs loss wts w0).bestW =
      (runFrom patience loss wts (initState w0) k).bestW := by
  have hep : (runFrom patience loss wts (initState w0) k).epoch = k := by
    have := runFrom_running patience loss wts (initState w0) k hk
    simpa [initState] using this.2
  have hsplit : run patience maxEpochs loss wts w0 =
      runFrom patience loss wts
        (runFrom patience loss wts (initState w0) k) (maxEpochs - k) := by
    rw [run, show maxEpochs = k + (maxEpochs - k) by omega, runFrom_add]
    congr 1
    omega
  obtain ⟨r, hr⟩ : ∃ r, maxEpochs - k = r + 1 := ⟨maxEpochs - k - 1, by omega⟩
  rw [hsplit, hr, runFrom_succ, if_pos hk, hep, hdiv]
  rw [show epochStep patience (runFrom patience loss wts (initState w0) k)
      LossVal.nonFinite (wts (k + 1)) =
      { runFrom patience loss wts (initState w0) k with
        status := .diverged } from rfl]
  rw [runFrom_absorb _ _ _ _ _ (by intro hc; cases hc)]
  exact ⟨rfl, hep, rfl, rfl⟩

/-! ### Concrete witnesses for the orchestrator claims -/

/-- Validation-loss sequence of spec Scenario B, scaled by 100:
`[90, 80, 85, 82, 81]` (later epochs never reached). -/
def scenarioBLoss : Nat → LossVal := fun n =>
  if n = 1 then .fin 90
  else if n = 2 then .fin 80
  else if n = 3 then .fin 85
  else if n = 4 then .fin 82
  else .fin 100

theorem early_stop_halts_and_restores_witness :
    (0 < 2 ∧ 1 ≤ 2 ∧
      (runFrom 2 scenarioBLoss (fun n => n) (initState 0) 2).status =
        .running ∧
      (runFrom 2 scenarioBLoss (fun n => n) (initState 0) 2).wait = 0 ∧
      2 + 2 ≤ 20) ∧
    (run 2 20 scenarioBLoss (fun n => n) 0).epoch = 4 ∧
    (run 2 20 scenarioBLoss (fun n => n) 0).status = .earlyStopped ∧
    (run 2 20 scenarioBLoss (fun n => n) 0).bestW = some 2 ∧
    finalWeights (run 2 20 scenarioBLoss (fun n => n) 0) = 2 := by
  have hni : ∀ j, 1 ≤ j → j ≤ 2 → ∃ q, scenarioBLoss (2 + j) = .fin q ∧
      improves q
        (runFrom 2 scenarioBLoss (fun n => n) (initState 0) 2).best =
        false := by
    intro j h1 h2
    interval_cases j
    · exact ⟨85, by decide, by decide⟩
    · exact ⟨82, by decide, by decide⟩
  have H := early_stop_halts_and_restores 2 2 20 scenarioBLoss (fun n => n)
    0 (by omega) (by omega) (by decide) (by decide) (by omega) hni
  exact ⟨⟨by omega, by omega, by decide, by decide, by omega⟩,
    H.1, H.2.1, H.2.2.1, H.2.2.2⟩

/-- A run that reaches `maxEpochs` with the best epoch strictly before
the last one (loss goes back up after epoch 1). -/
def plateauLoss : Nat → LossVal := fun n =>
  if n = 1 then .fin 50 else .fin 60

theorem termination_restores_best_witness :
    (1 ≤ 2 ∧ (run 3 2 plateauLoss (fun n => n) 0).status ≠ .diverged) ∧
    ∃ m qm, 1 ≤ m ∧ m ≤ (run 3 2 plateauLoss (fun n => n) 0).epoch ∧
      plateauLoss m = .fin qm ∧
      (run 3 2 plateauLoss (fun n => n) 0).bestW = some m ∧
      finalWeights (run 3 2 plateauLoss (fun n => n) 0) = m ∧
      ∀ j, 1 ≤ j → j ≤ (run 3 2 plateauLoss (fun n => n) 0).epoch →
        ∃ q, plateauLoss j = .fin q ∧ qm ≤ q :=
  ⟨⟨by omega, by decide⟩,
    termination_restores_best 3 2 plateauLoss (fun n => n) 0 (by omega)
      (by decide)⟩

/-- A loss sequence that becomes non-finite at epoch 2. -/
def divergingLoss : Nat → LossVal := fun n =>
  if n = 2 then .nonFinite else .fin 1

theorem divergence_aborts_run_witness :
    ((runFrom 3 divergingLoss (fun n => n) (initState 0) 1).status =
        .running ∧
      divergingLoss (1 + 1) = .nonFinite ∧ 1 < 5) ∧
    (run 3 5 divergingLoss (fun n => n) 0).status = .diverged ∧
    (run 3 5 divergingLoss (fun n => n) 0).epoch = 1 ∧
    (run 3 5 divergingLoss (fun n => n) 0).ckpts =
      (runFrom 3 divergingLoss (fun n => n) (initState 0) 1).ckpts ∧
    (run 3 5 divergingLoss (fun n => n) 0).bestW =
      (runFrom 3 divergingLoss (fun n => n) (initState 0) 1).bestW :=
  ⟨⟨by decide, by decide, by omega⟩,
    divergence_aborts_run 3 1 5 divergingLoss (fun n => n) 0 (by decide)
      (by decide) (by omega)⟩

/-! ## Seeded shuffling

Modelled from the spec: the pseudo-random draws behind both the
partitioner's seeded assignment (spec section 4.1) and the pipeline
optimiser's bounded-reservoir shuffle (spec section 4.2); the TensorFlow
implementations are not part of this repository. -/

/-- Reservoir-style shuffle driver: at each step emit a pseudo-randomly
chosen element of the buffer (the draw for step `n` is `rng n`) and
refill the buffer with the next element of the remaining stream. -/
def resShuffleGo (rng : Nat → Nat) : Nat → Nat → List α → List α → List α
  | 0, _, buffer, rest => buffer ++ rest
  | _ + 1, _, [], rest => rest
  | fuel + 1, step, x :: bs, [] =>
    (x :: bs).get ⟨rng step % (x :: bs).length,
        Nat.mod_lt _ (Nat.succ_pos bs.length)⟩ ::
      resShuffleGo rng fuel (step + 1)
        ((x :: bs).eraseIdx (rng step % (x :: bs).length)) []
  | fuel + 1, step, x :: bs, r :: rs =>
    (x :: bs).get ⟨rng step % (x :: bs).length,
        Nat.mod_lt _ (Nat.succ_pos bs.length)⟩ ::
      resShuffleGo rng fuel (step + 1)
        ((x :: bs).eraseIdx (rng step % (x :: bs).length) ++ [r]) rs

/-- Removing the element at index `i` and putting it in front is a
permutation. -/
theorem get_cons_eraseIdx_perm (l : List α) :
    ∀ (i : Nat) (h : i < l.length),
      l.Perm (l.get ⟨i, h⟩ :: l.eraseIdx i) := by
  induction l with
  | nil => intro i h; simp at h
  | cons a l ih =>
    intro i h
    cases i with
    | zero => simp
    | succ j =>
      have hj : j < l.length := by simpa using h
      simp only [List.get_cons_succ, List.eraseIdx_cons_succ]
      exact List.Perm.trans (List.Perm.cons a (ih j hj))
        (List.Perm.swap (l.get ⟨j, hj⟩) a (l.eraseIdx j))

/-- The reservoir shuffle emits a permutation of buffer and stream. -/
theorem resShuffleGo_perm (rng : Nat → Nat) :
    ∀ (fuel step : Nat) (buffer rest : List α),
      (resShuffleGo rng fuel step buffer rest).Perm (buffer ++ rest) := by
  intro fuel
  induction fuel with
  | zero => intro step buffer rest; exact List.Perm.refl _
  | succ n ih =>
    intro step buffer rest
    cases buffer with
    | nil =>
      cases rest with
      | nil => exact List.Perm.refl _
      | cons r rs => exact List.Perm.refl _
    | cons x bs =>
      cases rest with
      | nil =>
        rw [List.append_nil]
        refine List.Perm.trans
          (List.Perm.cons _ (List.Perm.trans
            (ih (step + 1)
              ((x :: bs).eraseIdx (rng step % (x :: bs).length)) [])
            (by rw [List.append_nil])))
          (get_cons_eraseIdx_perm (x :: bs) _ _).symm
      | cons r rs =>
        have hrec := ih (step + 1)
          ((x :: bs).eraseIdx (rng step % (x :: bs).length) ++ [r]) rs
        rw [List.append_assoc] at hrec
        refine List.Perm.trans (List.Perm.cons _ hrec) ?_
        have hfront := (get_cons_eraseIdx_perm (x :: bs)
          (rng step % (x :: bs).length)
          (Nat.mod_lt _ (Nat.succ_pos bs.length))).symm
        exact List.Perm.append_right ([r] ++ rs) hfront

/-- Modelled from the spec: a deterministic pseudo-random draw sequence
derived from an integer seed (a linear congruential generator; the spec
requires only that the draws are a deterministic function of the seed). -/
def lcg (seed : Nat) (k : Nat) : Nat :=
  (seed + 1) * 48271 + k * 11

/-- Deterministic seeded shuffle of a whole list (the shuffle
`image_dataset_from_directory` applies to the discovered file list before
splitting). -/
def seededShuffle (seed : Nat) (l : List α) : List α :=
  resShuffleGo (lcg seed) l.length 0 l []

theorem seededShuffle_perm (seed : Nat) (l : List α) :
    (seededShuffle seed l).Perm l := by
  have := resShuffleGo_perm (lcg seed) l.length 0 l []
  simpa [seededShuffle] using this

/-! ## Dataset partitioner (spec section 4.1; `get_datasets`,
`src/ml/train_model.py` lines 5-27) -/

/-- The `subset` argument of `image_dataset_from_directory`. -/
inductive Subset where
  | training
  | validation
deriving DecidableEq

/-- Configuration errors raised for invalid hyperparameters, before any
filesystem I/O (spec sections 6 and 7). -/
inductive ConfigError where
  | invalidSplitFraction
  | invalidBatchSize
deriving DecidableEq

/-- Number of samples reserved for validation: `⌊split * n⌋`. -/
def numValSamples (validationSplit : ℚ) (n : Nat) : Nat :=
  (validationSplit * n).floor.toNat

/-- Prefix/suffix split of the shuffled file list: training gets all but
the last `numVal` files, validation gets the last `numVal`. -/
def selectSplit (shuffled : List String) (numVal : Nat) :
    Subset → List String
  | .training => shuffled.take (shuffled.length - numVal)
  | .validation => shuffled.drop (shuffled.length - numVal)

/-- Modelled from the spec:
`tf.keras.preprocessing.image_dataset_from_directory` (not part of this
repository), restricted to subset membership, which is all the claims
need.  `contents` is the directory's discovered image-file listing.
Invalid hyperparameters are rejected before the listing is consulted;
otherwise the listing is shuffled deterministically by the seed and split
by the validation fraction.  `entropy` stands for ambient randomness and
is consulted only when no seed is supplied. -/
def imageDatasetFromDirectory (contents : List String)
    (validationSplit : ℚ) (subset : Subset) (seed : Option Nat)
    (batchSize : Nat) (entropy : Nat) : Except ConfigError (List String) :=
  if ¬(0 < validationSplit ∧ validationSplit < 1) then
    .error .invalidSplitFraction
  else if batchSize = 0 then .error .invalidBatchSize
  else
    .ok (selectSplit (seededShuffle (seed.getD entropy) contents)
      (numValSamples validationSplit contents.length) subset)

/-- `get_datasets` from the source: two `image_dataset_from_directory`
calls over the same directory with `subset="training"` and
`subset="validation"` and the same explicit `seed`.  `imgHeight` and
`imgWidth` only set the decode size and do not affect membership;
`entropyA`/`entropyB` are the ambient randomness either library call
would fall back on had no seed been passed. -/
def get_datasets (contents : List String) (imgHeight imgWidth : Nat)
    (batchSize : Nat) (validationSplit : ℚ) (seed : Nat)
    (entropyA entropyB : Nat) :
    Except ConfigError (List String × List String) :=
  match imageDatasetFromDirectory contents validationSplit .training
      (some seed) batchSize entropyA with
  | .error e => .error e
  | .ok train_ds =>
    match imageDatasetFromDirectory contents validationSplit .validation
        (some seed) batchSize entropyB with
    | .error e => .error e
    | .ok val_ds => .ok (train_ds, val_ds)

/-- With valid hyperparameters and a concrete seed, the library call
returns the deterministic shuffle-then-split of the listing. -/
theorem imageDatasetFromDirectory_ok (contents : List String)
    (validationSplit : ℚ) (subset : Subset) (seed : Nat) (batchSize : Nat)
    (entropy : Nat) (hv : 0 < validationSplit ∧ validationSplit < 1)
    (hb : batchSize ≠ 0) :
    imageDatasetFromDirectory contents validationSplit subset (some seed)
        batchSize entropy =
      .ok (selectSplit (seededShuffle seed contents)
        (numValSamples validationSplit contents.length) subset) := by
  simp [imageDatasetFromDirectory, hv.1, hv.2, hb]

/-- With an invalid split fraction or batch size, `get_datasets` fails
with the corresponding configuration error, whatever the directory
contents and ambient randomness. -/
theorem get_datasets_bad (contents : List String)
    (imgHeight imgWidth batchSize : Nat) (validationSplit : ℚ) (seed : Nat)
    (entropyA entropyB : Nat)
    (hbad : ¬(0 < validationSplit ∧ validationSplit < 1) ∨ batchSize = 0) :
    get_datasets contents imgHeight imgWidth batchSize validationSplit
        seed entropyA entropyB =
      .error (if 0 < validationSplit ∧ validationSplit < 1 then
        .invalidBatchSize else .invalidSplitFraction) := by
  by_cases hv : 0 < validationSplit ∧ validationSplit < 1
  · have hb : batchSize = 0 := hbad.resolve_left (not_not_intro hv)
    have h1 : imageDatasetFromDirectory contents validationSplit .training
        (some seed) batchSize entropyA = .error .invalidBatchSize := by
      simp [imageDatasetFromDirectory, hv.1, hv.2, hb]
    simp [get_datasets, h1, hv]
  · have h1 : imageDatasetFromDirectory contents validationSplit .training
        (some seed) batchSize entropyA = .error .invalidSplitFraction := by
      simp [imageDatasetFromDirectory, hv]
    simp [get_datasets, h1, hv]

/-- C1: for fixed root-directory contents, split fraction and seed, the
dataset partition is deterministic — it does not depend on the ambient
randomness available to either library call, so two independent calls to
`get_datasets` produce identical train and validation membership. -/
theorem get_datasets_deterministic (contents : List String)
    (imgHeight imgWidth batchSize : Nat) (validationSplit : ℚ)
    (seed : Nat) (entropyA entropyB entropyA2 entropyB2 : Nat) :
    get_datasets contents imgHeight imgWidth batchSize validationSplit
        seed entropyA entropyB =
      get_datasets contents imgHeight imgWidth batchSize validationSplit
        seed entropyA2 entropyB2 := rfl

/-- C2: whenever `get_datasets` succeeds on a duplicate-free directory
listing, the train and validation streams are disjoint at the level of
source images and together are a permutation of (hence cover exactly)
all discovered images. -/
theorem get_datasets_partition (contents : List String)
    (imgHeight imgWidth batchSize : Nat) (validationSplit : ℚ) (seed : Nat)
    (entropyA entropyB : Nat) (tr vl : List String)
    (hnd : contents.Nodup)
    (hok : get_datasets contents imgHeight imgWidth batchSize
      validationSplit seed entropyA entropyB = .ok (tr, vl)) :
    (∀ x, x ∈ tr → x ∉ vl) ∧ (tr ++ vl).Perm contents := by
  by_cases hv : 0 < validationSplit ∧ validationSplit < 1
  · by_cases hb : batchSize = 0
    · rw [get_datasets_bad contents imgHeight imgWidth batchSize
        validationSplit seed entropyA entropyB (Or.inr hb)] at hok
      cases hok
    · rw [get_datasets,
        imageDatasetFromDirectory_ok contents validationSplit .training
          seed batchSize entropyA hv hb,
        imageDatasetFromDirectory_ok contents validationSplit .validation
          seed batchSize entropyB hv hb] at hok
      simp only [Except.ok.injEq, Prod.mk.injEq] at hok
      obtain ⟨htr, hvl⟩ := hok
      subst htr
      subst hvl
      have hperm := seededShuffle_perm seed contents
      have hnd2 : (seededShuffle seed contents).Nodup :=
        hperm.nodup_iff.mpr hnd
      constructor
      · rw [← List.take_append_drop
          ((seededShuffle seed contents).length -
            numValSamples validationSplit contents.length)
          (seededShuffle seed contents)] at hnd2
        exact (List.nodup_append.mp hnd2).2.2
      · exact List.Perm.trans
          (by rw [selectSplit, selectSplit, List.take_append_drop])
          hperm
  · rw [get_datasets_bad contents imgHeight imgWidth batchSize
      validationSplit seed entropyA entropyB (Or.inl hv)] at hok
    cases hok

/-- C7: an invalid hyperparameter — a split fraction outside `(0, 1)` or
a batch size of zero — makes `get_datasets` fail with a configuration
error whose value is independent of the directory contents and of the
ambient randomness: the configuration is rejected before any filesystem
I/O and before any epoch could run. -/
theorem invalid_config_rejected (contentsA contentsB : List String)
    (imgHeight imgWidth batchSize : Nat) (validationSplit : ℚ) (seed : Nat)
    (entropyA entropyB entropyA2 entropyB2 : Nat)
    (hbad : ¬(0 < validationSplit ∧ validationSplit < 1) ∨ batchSize = 0) :
    (∃ e, get_datasets contentsA imgHeight imgWidth batchSize
      validationSplit seed entropyA entropyB = .error e) ∧
    get_datasets contentsA imgHeight imgWidth batchSize validationSplit
        seed entropyA entropyB =
      get_datasets contentsB imgHeight imgWidth batchSize validationSplit
        seed entropyA2 entropyB2 := by
  refine ⟨⟨_, get_datasets_bad contentsA imgHeight imgWidth batchSize
    validationSplit seed entropyA entropyB hbad⟩, ?_⟩
  rw [get_datasets_bad contentsA imgHeight imgWidth batchSize
    validationSplit seed entropyA entropyB hbad,
    get_datasets_bad contentsB imgHeight imgWidth batchSize
    validationSplit seed entropyA2 entropyB2 hbad]

/-- A five-image directory listing used to instantiate the partition
claims on concrete data. -/
def demoContents : List String :=
  ["a.jpg", "b.jpg", "c.jpg", "d.jpg", "e.jpg"]

/-- Training membership produced for `demoContents` with split `1/5`
and seed `123`. -/
def demoTrain : List String := ["e.jpg", "d.jpg", "c.jpg", "b.jpg"]

/-- Validation membership produced for `demoContents` with split `1/5`
and seed `123`. -/
def demoVal : List String := ["a.jpg"]

theorem get_datasets_partition_witness :
    demoContents.Nodup ∧
    get_datasets demoContents 224 224 32 (1 / 5) 123 0 1 =
      .ok (demoTrain, demoVal) ∧
    (∀ x, x ∈ demoTrain → x ∉ demoVal) ∧
    (demoTrain ++ demoVal).Perm demoContents := by
  have hok : get_datasets demoContents 224 224 32 (1 / 5) 123 0 1 =
      .ok (demoTrain, demoVal) := by
    rw [get_datasets,
      imageDatasetFromDirectory_ok demoContents (1 / 5) .training 123 32 0
        ⟨by norm_num, by norm_num⟩ (by norm_num),
      imageDatasetFromDirectory_ok demoContents (1 / 5) .validation 123 32 1
        ⟨by norm_num, by norm_num⟩ (by norm_num)]
    rw [show demoContents.length = 5 from rfl,
      show numValSamples (1 / 5) 5 = 1 by norm_num [numValSamples]; decide]
    rfl
  exact ⟨by decide, hok,
    get_datasets_partition demoContents 224 224 32 (1 / 5) 123 0 1
      demoTrain demoVal (by decide) hok⟩

theorem invalid_config_rejected_witness :
    (¬((0 : ℚ) < 2 ∧ (2 : ℚ) < 1) ∨ 32 = 0) ∧
    (∃ e, get_datasets demoContents 224 224 32 2 123 0 1 = .error e) ∧
    get_datasets demoContents 224 224 32 2 123 0 1 =
      get_datasets [] 224 224 32 2 123 7 8 :=
  ⟨Or.inl (by norm_num),
    invalid_config_rejected demoContents [] 224 224 32 2 123 0 1 7 8
      (Or.inl (by norm_num))⟩

/-! ## Pipeline optimiser (spec section 4.2; `configure_dataset`,
`src/ml/train_model.py` lines 29-36) -/

/-- A `tf.data.Dataset` restricted to what the claims need: the
underlying element sequence and the configuration attached by the
optimiser stages. -/
structure TfDataset (α : Type) where
  elems : List α
  shuffleBuffer : Option Nat
  cached : Bool
  prefetched : Bool

/-- `Dataset.shuffle(n)`: records a bounded reservoir of size `n`. -/
def shuffleDs (d : TfDataset α) (n : Nat) : TfDataset α :=
  { d with shuffleBuffer := some n }

/-- `Dataset.cache()`. -/
def cacheDs (d : TfDataset α) : TfDataset α :=
  { d with cached := true }

/-- `Dataset.prefetch(buffer_size=AUTOTUNE)`. -/
def prefetchDs (d : TfDataset α) : TfDataset α :=
  { d with prefetched := true }

/-- `configure_dataset` from the source: shuffle with a fixed buffer of
1000 items when `shuffle` is true, then cache and prefetch. -/
def configure_dataset (ds : TfDataset α) (shuffle : Bool) : TfDataset α :=
  prefetchDs (cacheDs (if shuffle then shuffleDs ds 1000 else ds))

/-- The pseudo-random draw for step `i` of a given epoch: each epoch
reseeds the stream. -/
def epochDraw (rng : Nat → Nat) (epoch i : Nat) : Nat :=
  rng (epoch * 1000003 + i)

/-- Modelled from the spec: iterating an optimised `tf.data` stream for
one epoch (the "restartable" semantics of spec section 4.2; the
TensorFlow implementation is not part of this repository).  The full
underlying sequence is replayed every epoch; when a shuffle buffer is
configured the elements are re-drawn from the bounded reservoir with
fresh per-epoch randomness, otherwise they are emitted in order. -/
def iterateEpoch (d : TfDataset α) (rng : Nat → Nat) (epoch : Nat) :
    List α :=
  match d.shuffleBuffer with
  | none => d.elems
  | some b =>
    resShuffleGo (epochDraw rng epoch) d.elems.length 0 (d.elems.take b)
      (d.elems.drop b)

/-- A two-element raw stream used to exhibit that different epochs can
produce different orders. -/
def demoNatDataset : TfDataset Nat :=
  { elems := [0, 1], shuffleBuffer := none, cached := false,
    prefetched := false }

/-- C8: configuring a raw stream with `shuffle=true` installs the fixed
1000-item reservoir, and every epoch's iteration replays a permutation
of the full underlying dataset with fresh per-epoch draws — two epochs
can emit different orders, so no cached order is replayed — while with
`shuffle=false` every epoch emits the elements unshuffled, in order. -/
theorem configured_stream_restartable (d : TfDataset α) (rng : Nat → Nat)
    (epoch : Nat) (hraw : d.shuffleBuffer = none) :
    (configure_dataset d true).shuffleBuffer = some 1000 ∧
    (iterateEpoch (configure_dataset d true) rng epoch).Perm d.elems ∧
    iterateEpoch (configure_dataset d false) rng epoch = d.elems ∧
    iterateEpoch (configure_dataset demoNatDataset true) id 0 ≠
      iterateEpoch (configure_dataset demoNatDataset true) id 1 := by
  refine ⟨rfl, ?_, ?_, by decide⟩
  · have hperm := resShuffleGo_perm (epochDraw rng epoch) d.elems.length 0
      (d.elems.take 1000) (d.elems.drop 1000)
    rw [List.take_append_drop] at hperm
    simpa [iterateEpoch, configure_dataset, shuffleDs, cacheDs, prefetchDs]
      using hperm
  · simp [iterateEpoch, configure_dataset, cacheDs, prefetchDs, hraw]

theorem configured_stream_restartable_witness :
    demoNatDataset.shuffleBuffer = none ∧
    ((configure_dataset demoNatDataset true).shuffleBuffer = some 1000 ∧
     (iterateEpoch (configure_dataset demoNatDataset true) id
       0).Perm demoNatDataset.elems ∧
     iterateEpoch (configure_dataset demoNatDataset false) id 0 =
       demoNatDataset.elems ∧
     iterateEpoch (configure_dataset demoNatDataset true) id 0 ≠
       iterateEpoch (configure_dataset demoNatDataset true) id 1) :=
  ⟨rfl, configured_stream_restartable demoNatDataset id 0 rfl⟩

/-! ## Model architecture builder (spec section 4.4; `build_model`,
`src/ml/train_model.py` lines 38-62) -/

/-- Layer activations used by the source. -/
inductive Activation where
  | relu
  | softmax

/-- The Keras layers the source instantiates, by constructor and
configuration. -/
inductive KLayer where
  | randomFlip (mode : String)
  | randomRotation (factor : ℚ)
  | sequentialOf (layers : List KLayer)
  | rescaling (scale : ℚ) (inputShape : Nat × Nat × Nat)
  | conv2D (filters : Nat) (kernel : Nat × Nat) (activation : Activation)
  | maxPooling2D
  | flatten
  | dense (units : Nat) (activation : Activation)

/-- The augmentation pipeline `main` passes to `build_model`. -/
def mainAugmentation : KLayer :=
  .sequentialOf [.randomFlip "horizontal_and_vertical",
    .randomRotation (1 / 5)]

/-- `build_model` from the source: a `Sequential` model built by the
exact sequence of `model.add` calls (each `++ [layer]` is one call). -/
def build_model (input_shape : Nat × Nat × Nat) (num_classes : Nat)
    (data_augmentation : Option KLayer) : List KLayer :=
  (match data_augmentation with
   | some aug => [aug]
   | none => []) ++
  ([KLayer.rescaling (1 / 255) input_shape] ++
   [KLayer.conv2D 16 (3, 3) .relu] ++ [KLayer.maxPooling2D] ++
   [KLayer.conv2D 32 (3, 3) .relu] ++ [KLayer.maxPooling2D] ++
   [KLayer.conv2D 64 (3, 3) .relu] ++ [KLayer.maxPooling2D] ++
   [KLayer.flatten] ++
   [KLayer.dense 128 .relu] ++ [KLayer.dense num_classes .softmax])

/-- The layer pipeline exactly as the spec words it (section 4.4):
optional augmentation, rescale by `1/255`, three conv(3x3, ReLU) +
max-pool blocks with widths 16, 32, 64, flatten, dense 128 ReLU, dense
`num_classes` softmax. -/
def specArchitecture (input_shape : Nat × Nat × Nat) (num_classes : Nat)
    (data_augmentation : Option KLayer) : List KLayer :=
  (match data_augmentation with
   | some aug => [aug]
   | none => []) ++
  [KLayer.rescaling (1 / 255) input_shape,
   KLayer.conv2D 16 (3, 3) .relu, KLayer.maxPooling2D,
   KLayer.conv2D 32 (3, 3) .relu, KLayer.maxPooling2D,
   KLayer.conv2D 64 (3, 3) .relu, KLayer.maxPooling2D,
   KLayer.flatten, KLayer.dense 128 .relu,
   KLayer.dense num_classes .softmax]

/-- C9: for every input shape, class count and optional augmentation
stage, `build_model` produces exactly the layer sequence the spec
prescribes, in order. -/
theorem build_model_architecture (input_shape : Nat × Nat × Nat)
    (num_classes : Nat) (data_augmentation : Option KLayer) :
    build_model input_shape num_classes data_augmentation =
      specArchitecture input_shape num_classes data_augmentation := by
  cases data_augmentation <;> rfl

/-! ## Artifact paths (`main`, `src/ml/train_model.py` lines 115
and 131) -/

/-- The best-checkpoint file path from
`ModelCheckpoint(filepath='best_damage_model.h5', ...)`. -/
def bestCheckpointPath : String := "best_damage_model.h5"

/-- The final artifact path from
`model.save("damage_assessment_model_final.h5")`. -/
def finalArtifactPath : String := "damage_assessment_model_final.h5"

/-- Durable storage as a map from file paths to stored values. -/
def Disk (V : Type) : Type := String → Option V

/-- Writing an artifact at a path, leaving every other path unchanged. -/
def writeArtifact (path : String) (v : V) (d : Disk V) : Disk V :=
  fun p => if p = path then some v else d p

/-- C10: the best-checkpoint artifact and the final artifact live at two
distinct fixed paths, so writing the final artifact leaves the
best-checkpoint file unchanged and best-checkpoint writes never touch
the final-artifact file. -/
theorem artifact_paths_independent (d : Disk V) (v w : V) :
    bestCheckpointPath ≠ finalArtifactPath ∧
    writeArtifact finalArtifactPath v d bestCheckpointPath =
      d bestCheckpointPath ∧
    writeArtifact bestCheckpointPath w d finalArtifactPath =
      d finalArtifactPath := by
  refine ⟨by decide, ?_, ?_⟩
  · simp [writeArtifact, bestCheckpointPath, finalArtifactPath]
  · simp [writeArtifact, bestCheckpointPath, finalArtifactPath]

end SureSight
